import Mathlib

/-!
Shallow embedding of the image-sharing feature (`share/images/forms.py`,
`share/images/views.py`): the relational records touched by the handlers,
the auxiliary key-value store used for the view counter and the popularity
ranking, and the request handlers `image_create`, `image_detail`,
`image_like`, `image_list`, `user_images_list` and `delete`, together with
theorems settling the behavioural claims about them.
-/

deriving instance DecidableEq for Except

namespace ShareIt

abbrev Id := Nat
abbrev UserId := Nat

/-- Modelled from the spec: the `Image` model (`models.py` is not part of the
sources); fields that no handler in `views.py` or `forms.py` consults
(title, source url, description, created timestamp, stored file) are omitted.
`priv` is the model's `private` visibility flag, `users_like` the
many-to-many "liked by" set. -/
structure Image where
  id : Id
  slug : String
  user : UserId
  priv : Bool
  users_like : List UserId
deriving DecidableEq, Repr

/-- Modelled from the spec: an activity-log entry, an (actor, verb, target)
triple accepted by `create_action` (the `actions` app is not part of the
sources). -/
structure ActionEntry where
  user : UserId
  verb : String
  target_id : Id
deriving DecidableEq, Repr

/-- The relational object store as seen by the handlers: the image records
and the activity-log entries. -/
structure Db where
  images : List Image
  actions : List ActionEntry
deriving DecidableEq, Repr

/-- The auxiliary redis store: the per-image view counters
(`image:{id}:views` keys) and the `image_ranking` sorted set, each an
association list from image id to integer value. -/
structure RedisState where
  views : List (Id × Nat)
  ranking : List (Id × Nat)
deriving DecidableEq, Repr

/-- Redis `INCR` / `ZINCRBY key 1`: add one to the value stored under `k`,
treating an absent key as 0. -/
def bump : List (Id × Nat) → Id → List (Id × Nat)
  | [], k => [(k, 1)]
  | (k', v) :: rest, k =>
      if k' = k then (k', v + 1) :: rest else (k', v) :: bump rest k

/-- Value stored under key `k`, 0 when the key is absent. -/
def counterVal (l : List (Id × Nat)) (k : Id) : Nat :=
  (List.lookup k l).getD 0

inductive DetailResult
  | notFound
  | page (image : Image) (total_views : Nat)
deriving DecidableEq, Repr

/-- Handler `image_detail` (views.py lines 65-76): `get_object_or_404` on
(id, slug) — a missing record yields the 404 before any counter is touched —
then `r.incr` on the view counter and `r.zincrby` by 1 on the ranking. -/
def image_detail (rds : RedisState) (db : Db) (i : Id) (slug : String) :
    RedisState × DetailResult :=
  match db.images.find? (fun im => im.id == i && im.slug == slug) with
  | none => (rds, .notFound)
  | some im =>
      let views' := bump rds.views im.id
      let ranking' := bump rds.ranking im.id
      (⟨views', ranking'⟩, .page im (counterVal views' im.id))

/-- N successive requests of the detail page of (i, slug). -/
def image_detail_iter (db : Db) (i : Id) (slug : String) :
    Nat → RedisState → RedisState
  | 0, rds => rds
  | n + 1, rds => image_detail_iter db i slug n (image_detail rds db i slug).1

/-- Points inside the `transaction.atomic()` block of `delete` where a
simulated failure can raise. -/
inductive FailAt
  | getStep
  | imageDeleteStep
  | actionsDeleteStep
deriving DecidableEq, Repr

/-- Body of the `with transaction.atomic():` block of `delete` (views.py
lines 180-183): fetch the record (raising `DoesNotExist` when absent),
delete it, then delete every action whose `target_id` matches. `.error`
carries the tentative state at the point the exception was raised — the
state the store would be left in were the block not transactional. -/
def delete_body (db : Db) (id_image : Id) (fail : Option FailAt) :
    Except Db Db :=
  if fail = some .getStep then .error db
  else
    match db.images.find? (fun im => im.id == id_image) with
    | none => .error db
    | some _ =>
        if fail = some .imageDeleteStep then .error db
        else
          let db1 : Db := { db with images := db.images.filter (fun im => im.id != id_image) }
          if fail = some .actionsDeleteStep then .error db1
          else .ok { db1 with actions := db1.actions.filter (fun a => a.target_id != id_image) }

inductive DeletePage
  | success
deriving DecidableEq, Repr

/-- Handler `delete` (views.py lines 169-187): the body runs inside
`transaction.atomic()`, so an exception anywhere in it rolls the store back
to the pre-call state; the exception is then caught and only logged, and
`delete_success.html` is rendered unconditionally. -/
def delete (db : Db) (id_image : Id) (fail : Option FailAt) : Db × DeletePage :=
  match delete_body db id_image fail with
  | .ok db' => (db', .success)
  | .error _ => (db, .success)

/-- Python `url.rsplit('.', 1)[1]`: the characters after the last `'.'`,
or `none` when the string holds no `'.'` (where the subscript `[1]` of the
one-element split result would raise `IndexError`). -/
def extAfterLastDot : List Char → Option (List Char)
  | [] => none
  | c :: rest =>
      match extAfterLastDot rest with
      | some e => some e
      | none => if c = '.' then some rest else none

/-- Source `valid_extensions` of `ImageCreateForm.clean_url` (forms.py). -/
def valid_extensions : List String := ["jpg", "jpeg", "png"]

/-- Python `str.lower()` applied to the extension: characterwise
lowercasing (the extensions compared against are ASCII). -/
def lowerChars (l : List Char) : List Char := l.map Char.toLower

inductive FormError
  | validationError
  | indexError
deriving DecidableEq, Repr

/-- Form method `ImageCreateForm.clean_url` (forms.py lines 22-28): take the
text after the last dot of the url, lowercase it, and raise
`ValidationError` unless it is one of `valid_extensions`. -/
def clean_url (url : String) : Except FormError String :=
  match extAfterLastDot url.data with
  | none => .error .indexError
  | some ext =>
      if valid_extensions.contains (String.mk (lowerChars ext)) then .ok url
      else .error .validationError

/-- The raw POST parameters of the submission form. `is_private` is the raw
request parameter a caller may send; it is not a declared form field. -/
structure PostData where
  title : String
  url : String
  url_user : String
  description : String
  is_private : Option Bool
deriving DecidableEq, Repr

/-- The `cleaned_data` dict of a valid `ImageCreateForm`: it holds exactly
the declared fields — `Meta.fields = ['title', 'url', 'url_user',
'description']` (forms.py lines 15-20) — never the undeclared raw POST key
`is_private`. -/
def cleaned_data (p : PostData) : List (String × String) :=
  [("title", p.title), ("url", p.url), ("url_user", p.url_user),
   ("description", p.description)]

/-- State touched by the submission handler: the object store plus the list
of URLs fetched by `requests.get` inside `ImageCreateForm.save`. -/
structure CreateState where
  db : Db
  fetches : List String
deriving DecidableEq, Repr

inductive CreateResult
  /-- `form.is_valid()` returned False: `create.html` is re-rendered with
  the field errors. -/
  | formInvalid
  /-- `form.cleaned_data['is_private']` raised `KeyError` after the record
  was saved. -/
  | keyError
  /-- `redirect(new_image.get_absolute_url())`. -/
  | redirect (toId : Id)
deriving DecidableEq, Repr

/-- Handler `image_create`, POST branch (views.py lines 39-54): validate the
form (`clean_url`); on success `form.save(commit=False)` fetches the remote
url, the record is persisted with the requesting user as owner, and then the
handler reads `form.cleaned_data['is_private']` to decide whether to log a
`create_action` event before redirecting. `newId` is the store-assigned
identifier of the record; the slug is assigned by the model layer, which no
handler logic here reads. -/
def image_create (st : CreateState) (user : UserId) (newId : Id) (p : PostData) :
    CreateState × CreateResult :=
  match clean_url p.url with
  | .error _ => (st, .formInvalid)
  | .ok _ =>
      let st1 : CreateState := { st with fetches := st.fetches ++ [p.url] }
      let img : Image :=
        { id := newId, slug := "", user := user, priv := false, users_like := [] }
      let st2 : CreateState :=
        { st1 with db := { st1.db with images := st1.db.images ++ [img] } }
      match (cleaned_data p).lookup "is_private" with
      | none => (st2, .keyError)
      | some v =>
          if v = "True" then
            ({ st2 with db := { st2.db with
                actions := st2.db.actions ++ [⟨user, "поделился", newId⟩] } },
             .redirect newId)
          else (st2, .redirect newId)

/-- Django M2M `add`: a no-op when the user is already a member. -/
def m2m_add (l : List UserId) (u : UserId) : List UserId :=
  if l.contains u then l else l ++ [u]

/-- Django M2M `remove`: drops the user from the membership set. -/
def m2m_remove (l : List UserId) (u : UserId) : List UserId :=
  l.filter (fun x => x != u)

/-- Apply `f` to the record `Image.objects.get(id=iid)` would return (ids
are unique primary keys, so the first match is the record). -/
def update_image (l : List Image) (iid : Id) (f : Image → Image) : List Image :=
  match l with
  | [] => []
  | im :: rest =>
      if im.id == iid then f im :: rest else im :: update_image rest iid f

inductive LikeStatus
  | ok
  | error
deriving DecidableEq, Repr

/-- Handler `image_like` (views.py lines 81-95): with both parameters
present and truthy, fetch the record; `action == 'like'` adds the requester
to `users_like` and logs one activity event, any other action removes the
requester and logs nothing; a missing record or missing parameters yield the
error status. -/
def image_like (db : Db) (user : UserId) (imageId : Option Id)
    (action : Option String) : Db × LikeStatus :=
  match imageId, action with
  | some iid, some act =>
      if act = "" then (db, .error)
      else
        match db.images.find? (fun im => im.id == iid) with
        | none => (db, .error)
        | some _ =>
            if act = "like" then
              let images' := update_image db.images iid
                (fun im => { im with users_like := m2m_add im.users_like user })
              ({ images := images', actions := db.actions ++ [⟨user, "лайкнул", iid⟩] }, .ok)
            else
              let images' := update_image db.images iid
                (fun im => { im with users_like := m2m_remove im.users_like user })
              ({ db with images := images' }, .ok)
  | _, _ => (db, .error)

/-- Page size passed to `Paginator` in `image_list` and `user_images_list`. -/
def perPage : Nat := 1000

/-- Django `Paginator.num_pages` with zero orphans and
`allow_empty_first_page`: `ceil(max(1, count) / per_page)`. -/
def numPages (count : Nat) : Nat := (max 1 count + perPage - 1) / perPage

/-- The `page` request parameter: a numeric value, or a non-numeric string. -/
inductive PageParam
  | num (n : Int)
  | notInt
deriving DecidableEq, Repr

inductive PageErr
  | notAnInteger
  | empty
deriving DecidableEq, Repr

/-- Django `Paginator.validate_number`: a non-numeric parameter raises
`PageNotAnInteger`; a number below 1 or above `num_pages` raises
`EmptyPage`. -/
def validate_number (count : Nat) (p : PageParam) : Except PageErr Nat :=
  match p with
  | .notInt => .error .notAnInteger
  | .num n =>
      if n < 1 then .error .empty
      else if (numPages count : Int) < n then .error .empty
      else .ok n.toNat

/-- The object list of page `n` (1-based). -/
def pageItems {α : Type} (l : List α) (n : Nat) : List α :=
  (l.drop ((n - 1) * perPage)).take perPage

inductive ListResult (α : Type)
  /-- `HttpResponse('')` returned in fragment mode past the last page. -/
  | emptyResponse
  /-- A rendered page (fragment template when `imagesOnly`). -/
  | page (imagesOnly : Bool) (items : List α)
deriving DecidableEq

/-- Pagination of `image_list` / `user_images_list` (views.py lines
112-123): `PageNotAnInteger` falls back to page 1; `EmptyPage` returns the
empty response in fragment (`images_only`) mode and the last page
otherwise. -/
def paginate {α : Type} (objects : List α) (p : PageParam) (imagesOnly : Bool) :
    ListResult α :=
  match validate_number objects.length p with
  | .ok n => .page imagesOnly (pageItems objects n)
  | .error .notAnInteger => .page imagesOnly (pageItems objects 1)
  | .error .empty =>
      if imagesOnly then .emptyResponse
      else .page imagesOnly (pageItems objects (numPages objects.length))

/-- Order of the redis `image_ranking` sorted set read back descending:
higher score first, ties resolved by member (a tie order no claim depends
on). -/
def rankLe (a b : Id × Nat) : Prop :=
  b.2 < a.2 ∨ (b.2 = a.2 ∧ a.1 ≤ b.1)

instance : DecidableRel rankLe := fun a b => by
  unfold rankLe; exact inferInstance

/-- Redis `zrange('image_ranking', 0, -1, desc=True)`: the members of the
sorted set ordered by descending score (a stable sort models the store's
fixed tie order). -/
def zrange_desc (ranking : List (Id × Nat)) : List Id :=
  (ranking.insertionSort rankLe).map (fun e => e.1)

/-- The `image_ranking_ids` of `image_list` (views.py lines 106-107): the
top ten members by descending score. -/
def image_ranking_ids (ranking : List (Id × Nat)) : List Id :=
  (zrange_desc ranking).take 10

/-- Position of the first occurrence of `x`, Python `list.index`. -/
def listIndex : List Id → Id → Nat
  | [], _ => 0
  | y :: ys, x => if y = x then 0 else listIndex ys x + 1

/-- The `most_viewed` side list of `image_list` (views.py lines 109-110):
records that are among the top-ten ranked ids and not private, re-sorted
(stably, as Python `list.sort`) by their position in the ranking order. -/
def most_viewed (ranking : List (Id × Nat)) (images : List Image) : List Image :=
  let ids := image_ranking_ids ranking
  (images.filter (fun im => ids.contains im.id && im.priv == false)).insertionSort
    (fun a b => listIndex ids a.id ≤ listIndex ids b.id)

/-- Ranking score of an image id: its value in the sorted set, 0 if absent. -/
def scoreOf (ranking : List (Id × Nat)) (i : Id) : Nat :=
  (List.lookup i ranking).getD 0

inductive UserListResult
  /-- The paginated listing of the requested user's records. -/
  | listing (r : ListResult Image)
  /-- The `NotFound.html` page. -/
  | notFound
deriving DecidableEq

/-- Handler `user_images_list` (views.py lines 140-166): fetch the `User`
row first — `User.objects.get(id=user_id)` raises an unhandled
`User.DoesNotExist` (the `.error` case) when no such user exists — then
serve the listing when the requester is that user and the not-found page
otherwise. -/
def user_images_list (users : List UserId) (curUser : UserId) (userId : UserId)
    (db : Db) (p : PageParam) (imagesOnly : Bool) : Except Unit UserListResult :=
  if users.contains userId then
    if userId = curUser then
      .ok (.listing (paginate (db.images.filter (fun im => im.user == userId)) p imagesOnly))
    else .ok .notFound
  else .error ()

/-! Theorems. -/

theorem counterVal_bump (l : List (Id × Nat)) (k k' : Id) :
    counterVal (bump l k) k' = counterVal l k' + (if k' = k then 1 else 0) := by
  induction l with
  | nil =>
      by_cases h : k' = k
      · simp [bump, counterVal, List.lookup_cons, h]
      · simp [bump, counterVal, List.lookup_cons, h, beq_false_of_ne h]
  | cons a rest ih =>
      obtain ⟨ka, va⟩ := a
      by_cases h1 : ka = k
      · subst h1
        by_cases h2 : k' = ka
        · simp [bump, counterVal, List.lookup_cons, h2]
        · simp [bump, counterVal, List.lookup_cons, h2, beq_false_of_ne h2]
      · by_cases h2 : k' = ka
        · subst h2
          simp [bump, counterVal, List.lookup_cons, h1]
        · simpa [bump, counterVal, List.lookup_cons, h1, h2, beq_false_of_ne h2]
            using ih

/-- C5: viewing the detail page of an existing image N times adds exactly N
to that image's view counter and exactly N to its ranking score, and leaves
every other image's counter and score unchanged. -/
theorem image_detail_iter_counts (db : Db) (i : Id) (slug : String) (im : Image)
    (N : Nat) (rds : RedisState)
    (h : db.images.find? (fun x => x.id == i && x.slug == slug) = some im) :
    counterVal (image_detail_iter db i slug N rds).views im.id
        = counterVal rds.views im.id + N
    ∧ counterVal (image_detail_iter db i slug N rds).ranking im.id
        = counterVal rds.ranking im.id + N
    ∧ ∀ k, k ≠ im.id →
        counterVal (image_detail_iter db i slug N rds).views k
            = counterVal rds.views k
        ∧ counterVal (image_detail_iter db i slug N rds).ranking k
            = counterVal rds.ranking k := by
  induction N generalizing rds with
  | zero => simp [image_detail_iter]
  | succ n ih =>
      have hstep : (image_detail rds db i slug).1
          = ⟨bump rds.views im.id, bump rds.ranking im.id⟩ := by
        simp [image_detail, h]
      rw [image_detail_iter, hstep]
      obtain ⟨h1, h2, h3⟩ := ih ⟨bump rds.views im.id, bump rds.ranking im.id⟩
      refine ⟨?_, ?_, ?_⟩
      · rw [h1]; simp [counterVal_bump]; omega
      · rw [h2]; simp [counterVal_bump]; omega
      · intro k hk
        obtain ⟨hk1, hk2⟩ := h3 k hk
        rw [hk1, hk2]
        constructor <;> simp [counterVal_bump, hk]

/-- Witness for C5 at a concrete store: three detail views of image 1 take
its counters from 0 to 3 and leave image 9's counters at their old values. -/
theorem image_detail_iter_counts_witness :
    (counterVal (image_detail_iter
          ⟨[⟨1, "s", 2, false, []⟩], []⟩ 1 "s" 3 ⟨[], [(9, 4)]⟩).views
        (Image.mk 1 "s" 2 false []).id
      = counterVal (RedisState.mk [] [(9, 4)]).views (Image.mk 1 "s" 2 false []).id + 3)
    ∧ (counterVal (image_detail_iter
          ⟨[⟨1, "s", 2, false, []⟩], []⟩ 1 "s" 3 ⟨[], [(9, 4)]⟩).ranking
        (Image.mk 1 "s" 2 false []).id
      = counterVal (RedisState.mk [] [(9, 4)]).ranking (Image.mk 1 "s" 2 false []).id + 3)
    ∧ ∀ k, k ≠ (Image.mk 1 "s" 2 false []).id →
        (counterVal (image_detail_iter
              ⟨[⟨1, "s", 2, false, []⟩], []⟩ 1 "s" 3 ⟨[], [(9, 4)]⟩).views k
          = counterVal (RedisState.mk [] [(9, 4)]).views k)
        ∧ (counterVal (image_detail_iter
              ⟨[⟨1, "s", 2, false, []⟩], []⟩ 1 "s" 3 ⟨[], [(9, 4)]⟩).ranking k
          = counterVal (RedisState.mk [] [(9, 4)]).ranking k) :=
  image_detail_iter_counts ⟨[⟨1, "s", 2, false, []⟩], []⟩ 1 "s"
    (Image.mk 1 "s" 2 false []) 3 ⟨[], [(9, 4)]⟩ (by decide)

/-- C6: a detail request whose id is unknown or whose slug does not match
yields the not-found result and mutates neither counter store. -/
theorem image_detail_missing_no_mutation (rds : RedisState) (db : Db) (i : Id)
    (slug : String)
    (h : db.images.find? (fun x => x.id == i && x.slug == slug) = none) :
    image_detail rds db i slug = (rds, .notFound) := by
  simp [image_detail, h]

/-- Witness for C6: a mismatched slug for an existing id leaves the counter
stores untouched. -/
theorem image_detail_missing_no_mutation_witness :
    image_detail ⟨[(1, 7)], [(1, 7)]⟩ ⟨[⟨1, "s", 2, false, []⟩], []⟩ 1 "wrong"
      = (⟨[(1, 7)], [(1, 7)]⟩, .notFound) :=
  image_detail_missing_no_mutation ⟨[(1, 7)], [(1, 7)]⟩
    ⟨[⟨1, "s", 2, false, []⟩], []⟩ 1 "wrong" (by decide)

/-- C3: `delete` renders the success page in every case; with no failure it
removes exactly the record with the requested id together with every
activity-log entry targeting it, and any mid-delete failure (including a
missing record) leaves the store exactly as it was. -/
theorem delete_transactional (db : Db) (id_image : Id) (fail : Option FailAt) :
    (delete db id_image fail).2 = .success
    ∧ (delete db id_image fail).1 =
        (if fail = none ∧ db.images.any (fun im => im.id == id_image) = true then
          { images := db.images.filter (fun im => im.id != id_image),
            actions := db.actions.filter (fun a => a.target_id != id_image) }
        else db) := by
  constructor
  · cases hb : delete_body db id_image fail <;> simp [delete, hb]
  · cases hfail : fail with
    | none =>
        cases hfind : db.images.find? (fun im => im.id == id_image) with
        | none =>
            have hany : db.images.any (fun im => im.id == id_image) = false := by
              rw [List.any_eq_false]
              intro x hx
              simpa using List.find?_eq_none.mp hfind x hx
            simp [delete, delete_body, hfind, hany]
        | some im =>
            have hany : db.images.any (fun im => im.id == id_image) = true := by
              rw [List.any_eq_true]
              have hp := List.find?_some hfind
              exact ⟨im, List.mem_of_find?_eq_some hfind, hp⟩
            simp [delete, delete_body, hfind, hany]
    | some f =>
        cases hfind : db.images.find? (fun im => im.id == id_image) <;>
          cases f <;> simp [delete, delete_body, hfind]

theorem numPages_pos (count : Nat) : 1 ≤ numPages count := by
  have h : 1 ≤ max 1 count := Nat.le_max_left 1 count
  unfold numPages perPage
  omega

/-- C7: a non-numeric page parameter yields the same result as page 1, and a
numeric page parameter beyond the last page yields the last page in full
mode and the empty response in fragment (`images_only`) mode. -/
theorem image_list_pagination_fallback {α : Type} (objects : List α)
    (imagesOnly : Bool) (n : Int) :
    paginate objects .notInt imagesOnly = paginate objects (.num 1) imagesOnly
    ∧ ((numPages objects.length : Int) < n →
        paginate objects (.num n) false
            = .page false (pageItems objects (numPages objects.length))
        ∧ paginate objects (.num n) true = .emptyResponse) := by
  have hpos : (1 : Int) ≤ (numPages objects.length : Int) := by
    exact_mod_cast numPages_pos objects.length
  constructor
  · have h1 : ¬ ((1 : Int) < 1) := by omega
    have h2 : ¬ ((numPages objects.length : Int) < 1) := by omega
    simp [paginate, validate_number, h1, h2]
  · intro hn
    have h1 : ¬ (n < 1) := by omega
    simp [paginate, validate_number, h1, hn]

/-- Witness for C7 at a concrete one-page listing: page "abc" matches page
1, and page 9999 clamps to the last page in full mode while fragment mode
returns the empty response. -/
theorem image_list_pagination_fallback_witness :
    paginate [0, 1, 2] PageParam.notInt true = paginate [0, 1, 2] (.num 1) true
    ∧ paginate [0, 1, 2] (.num 9999) false
        = .page false (pageItems [0, 1, 2] (numPages (List.length [0, 1, 2])))
    ∧ paginate [0, 1, 2] (.num 9999) true = .emptyResponse := by
  obtain ⟨h1, h2⟩ := image_list_pagination_fallback [0, 1, 2] true 9999
  obtain ⟨h2a, h2b⟩ := h2 (by decide)
  exact ⟨h1, h2a, h2b⟩

theorem lookup_cleaned_data_is_private (p : PostData) :
    (cleaned_data p).lookup "is_private" = none := by
  simp [cleaned_data, List.lookup_cons]

/-- C8: for a submitted URL that has an extension (text after its last
dot), validation succeeds exactly when the lowercased extension is jpg,
jpeg or png; on any other extension the form is invalid and the submission
re-renders the form without fetching anything or creating any record. -/
theorem clean_url_extension_gate (st : CreateState) (user : UserId) (newId : Id)
    (p : PostData) (e : List Char) (h : extAfterLastDot p.url.data = some e) :
    (clean_url p.url = .ok p.url ↔ String.mk (lowerChars e) ∈ valid_extensions)
    ∧ (String.mk (lowerChars e) ∉ valid_extensions →
        clean_url p.url = .error .validationError
        ∧ image_create st user newId p = (st, .formInvalid)) := by
  by_cases hv : String.mk (lowerChars e) ∈ valid_extensions
  · have hc : valid_extensions.contains (String.mk (lowerChars e)) = true := by
      simpa using hv
    constructor
    · simp [clean_url, h, hc, hv]
    · intro hneg; exact absurd hv hneg
  · have hc : valid_extensions.contains (String.mk (lowerChars e)) = false := by
      simpa using hv
    have hcu : clean_url p.url = .error .validationError := by
      simp only [clean_url, h]
      rw [hc]
      simp
    refine ⟨?_, fun _ => ⟨hcu, ?_⟩⟩
    · rw [hcu]; simp only [false_iff, reduceCtorEq]; exact hv
    · simp [image_create, hcu]

/-- Witness for C8: a `.GIF` URL (lowercased extension `gif`) fails
validation and the handler state is left untouched. -/
theorem clean_url_extension_gate_witness :
    (clean_url "http://x.com/a.GIF" = .ok "http://x.com/a.GIF"
        ↔ String.mk (lowerChars "GIF".data) ∈ valid_extensions)
    ∧ (String.mk (lowerChars "GIF".data) ∉ valid_extensions →
        clean_url "http://x.com/a.GIF" = .error .validationError
        ∧ image_create ⟨⟨[], []⟩, []⟩ 7 1 ⟨"t", "http://x.com/a.GIF", "", "", none⟩
            = (⟨⟨[], []⟩, []⟩, .formInvalid)) :=
  clean_url_extension_gate ⟨⟨[], []⟩, []⟩ 7 1
    ⟨"t", "http://x.com/a.GIF", "", "", none⟩ "GIF".data (by decide)

/-- C2: on every valid POST submission the record is persisted, but the
subsequent read of `cleaned_data['is_private']` finds no such key, the
handler raises `KeyError`, and the success redirect is never reached. -/
theorem image_create_keyerror (st : CreateState) (user : UserId) (newId : Id)
    (p : PostData) (u : String) (hv : clean_url p.url = .ok u) :
    (cleaned_data p).lookup "is_private" = none
    ∧ (image_create st user newId p).2 = .keyError
    ∧ (image_create st user newId p).1.db.images
        = st.db.images
            ++ [{ id := newId, slug := "", user := user, priv := false, users_like := [] }]
    ∧ ∀ j, (image_create st user newId p).2 ≠ .redirect j := by
  refine ⟨lookup_cleaned_data_is_private p, ?_, ?_, ?_⟩ <;>
    simp [image_create, hv, lookup_cleaned_data_is_private]

/-- Witness for C2: a concrete valid submission ends in the KeyError state
with the record saved. -/
theorem image_create_keyerror_witness :
    (cleaned_data ⟨"cat", "http://x.com/a.jpg", "", "", some false⟩).lookup "is_private" = none
    ∧ (image_create ⟨⟨[], []⟩, []⟩ 7 1 ⟨"cat", "http://x.com/a.jpg", "", "", some false⟩).2
        = .keyError
    ∧ (image_create ⟨⟨[], []⟩, []⟩ 7 1
          ⟨"cat", "http://x.com/a.jpg", "", "", some false⟩).1.db.images
        = ([] : List Image)
            ++ [{ id := 1, slug := "", user := 7, priv := false, users_like := [] }]
    ∧ ∀ j, (image_create ⟨⟨[], []⟩, []⟩ 7 1
          ⟨"cat", "http://x.com/a.jpg", "", "", some false⟩).2 ≠ .redirect j :=
  image_create_keyerror ⟨⟨[], []⟩, []⟩ 7 1
    ⟨"cat", "http://x.com/a.jpg", "", "", some false⟩ "http://x.com/a.jpg" (by decide)

/-- C1 counterexample: a valid submission that explicitly requests
non-private sharing (`is_private=False`) persists the record yet logs no
activity event, refuting the claim that an event is logged in exactly that
case. -/
theorem image_create_nonprivate_no_event :
    (PostData.mk "cat" "http://x.com/a.jpg" "" "" (some false)).is_private = some false
    ∧ (image_create ⟨⟨[], []⟩, []⟩ 7 1
          ⟨"cat", "http://x.com/a.jpg", "", "", some false⟩).1.db.images ≠ []
    ∧ (image_create ⟨⟨[], []⟩, []⟩ 7 1
          ⟨"cat", "http://x.com/a.jpg", "", "", some false⟩).1.db.actions = [] := by
  decide

/-- C1 as amended: no submission ever logs an activity event — the handler
reads the undeclared `is_private` key from the cleaned data after the
record is persisted, so it raises `KeyError` before any `create_action`
call regardless of what the caller requested. -/
theorem image_create_never_logs_activity (st : CreateState) (user : UserId)
    (newId : Id) (p : PostData) :
    (image_create st user newId p).1.db.actions = st.db.actions := by
  cases hv : clean_url p.url with
  | error err => simp [image_create, hv]
  | ok u => simp [image_create, hv, lookup_cleaned_data_is_private]

theorem find?_update_image (l : List Image) (iid : Id) (f : Image → Image)
    (hf : ∀ x, (f x).id = x.id) :
    (update_image l iid f).find? (fun x => x.id == iid)
      = (l.find? (fun x => x.id == iid)).map f := by
  induction l with
  | nil => simp [update_image]
  | cons im rest ih =>
      by_cases h : im.id = iid
      · simp [update_image, h, hf, List.find?_cons]
      · simp [update_image, h, List.find?_cons, beq_false_of_ne h, ih]

theorem update_image_update_image (l : List Image) (iid : Id) (f g : Image → Image)
    (hf : ∀ x, (f x).id = x.id) :
    update_image (update_image l iid f) iid g
      = update_image l iid (fun x => g (f x)) := by
  induction l with
  | nil => simp [update_image]
  | cons im rest ih =>
      by_cases h : im.id = iid
      · simp [update_image, h, hf]
      · simp [update_image, h, ih]

theorem update_image_fixed (l : List Image) (iid : Id) (f : Image → Image)
    (im : Image) (hfind : l.find? (fun x => x.id == iid) = some im)
    (hfix : f im = im) : update_image l iid f = l := by
  induction l with
  | nil => simp at hfind
  | cons a rest ih =>
      by_cases h : a.id = iid
      · rw [List.find?_cons_of_pos _ (by simpa using h)] at hfind
        obtain rfl : a = im := by simpa using hfind
        simp [update_image, h, hfix]
      · rw [List.find?_cons_of_neg _ (by simpa using h)] at hfind
        simp [update_image, h, ih hfind]

theorem m2m_remove_add (l : List UserId) (u : UserId) (hu : u ∉ l) :
    m2m_remove (m2m_add l u) u = l := by
  have hc : l.contains u = false := by simpa using hu
  unfold m2m_add m2m_remove
  rw [hc]
  simp only [Bool.false_eq_true, if_false, List.filter_append]
  have h1 : l.filter (fun x => x != u) = l :=
    List.filter_eq_self.mpr (fun x hx => by
      simp only [bne_iff_ne, ne_eq, decide_eq_true_eq]
      exact fun hxu => hu (hxu ▸ hx))
  simp [h1]

/-- C9 counterexample: for a user who already liked the image, `like` is a
set-membership no-op and `unlike` then removes them, so like-then-unlike
does not restore the liked-by set to its original state. -/
theorem like_unlike_already_liked :
    (image_like
        (image_like ⟨[⟨1, "s", 2, false, [5]⟩], []⟩ 5 (some 1) (some "like")).1
        5 (some 1) (some "unlike")).1.images
      ≠ (Db.mk [⟨1, "s", 2, false, [5]⟩] []).images := by
  decide

/-- C9 as amended: when the acting user is not already in the image's
liked-by set, performing like then unlike restores the set to its original
state; the like action logs exactly one activity event and the unlike
action logs none. -/
theorem like_then_unlike_fresh (db : Db) (u : UserId) (iid : Id) (im : Image)
    (hfind : db.images.find? (fun x => x.id == iid) = some im)
    (hu : u ∉ im.users_like) :
    (image_like (image_like db u (some iid) (some "like")).1
        u (some iid) (some "unlike")).1.images = db.images
    ∧ (image_like db u (some iid) (some "like")).1.actions
        = db.actions ++ [⟨u, "лайкнул", iid⟩]
    ∧ (image_like (image_like db u (some iid) (some "like")).1
          u (some iid) (some "unlike")).1.actions
        = (image_like db u (some iid) (some "like")).1.actions := by
  have hfadd : ∀ x : Image,
      (({ x with users_like := m2m_add x.users_like u } : Image)).id = x.id :=
    fun _ => rfl
  have e1 : image_like db u (some iid) (some "like")
      = ({ images := update_image db.images iid
              (fun x => { x with users_like := m2m_add x.users_like u }),
           actions := db.actions ++ [⟨u, "лайкнул", iid⟩] }, .ok) := by
    simp [image_like, hfind]
  have hfind2 : (update_image db.images iid
        (fun x => { x with users_like := m2m_add x.users_like u })).find?
        (fun x => x.id == iid)
      = some { im with users_like := m2m_add im.users_like u } := by
    rw [find?_update_image _ _ _ hfadd, hfind]
    rfl
  have e2 : image_like
        (Db.mk (update_image db.images iid
            (fun x => { x with users_like := m2m_add x.users_like u }))
          (db.actions ++ [⟨u, "лайкнул", iid⟩]))
        u (some iid) (some "unlike")
      = (Db.mk (update_image (update_image db.images iid
            (fun x => { x with users_like := m2m_add x.users_like u }))
          iid (fun x => { x with users_like := m2m_remove x.users_like u }))
          (db.actions ++ [⟨u, "лайкнул", iid⟩]), .ok) := by
    simp [image_like, hfind2]
  have hcomp : update_image (update_image db.images iid
        (fun x => { x with users_like := m2m_add x.users_like u }))
      iid (fun x => { x with users_like := m2m_remove x.users_like u })
      = db.images := by
    rw [update_image_update_image _ _ _ _ hfadd]
    exact update_image_fixed _ _ _ im hfind (by
      simp only [m2m_remove_add im.users_like u hu])
  rw [e1]
  refine ⟨?_, rfl, ?_⟩
  · rw [e2, hcomp]
  · rw [e2]

/-- Witness for C9's amended statement at a concrete store: user 5 had not
liked image 1; like-then-unlike restores the liked-by set and logs exactly
one event. -/
theorem like_then_unlike_fresh_witness :
    (image_like (image_like ⟨[⟨1, "s", 2, false, []⟩], []⟩ 5 (some 1) (some "like")).1
        5 (some 1) (some "unlike")).1.images = (Db.mk [⟨1, "s", 2, false, []⟩] []).images
    ∧ (image_like ⟨[⟨1, "s", 2, false, []⟩], []⟩ 5 (some 1) (some "like")).1.actions
        = (Db.mk [⟨1, "s", 2, false, []⟩] []).actions ++ [⟨5, "лайкнул", 1⟩]
    ∧ (image_like (image_like ⟨[⟨1, "s", 2, false, []⟩], []⟩ 5 (some 1) (some "like")).1
          5 (some 1) (some "unlike")).1.actions
        = (image_like ⟨[⟨1, "s", 2, false, []⟩], []⟩ 5 (some 1) (some "like")).1.actions :=
  like_then_unlike_fresh ⟨[⟨1, "s", 2, false, []⟩], []⟩ 5 1 ⟨1, "s", 2, false, []⟩
    (by decide) (by decide)

/-- C10 counterexample: when the requested user id does not exist,
`User.objects.get` raises before the ownership check, so a requester with a
different id gets an unhandled `DoesNotExist` error, not the not-found
page. -/
theorem user_images_list_missing_user :
    (2 : UserId) ≠ 1
    ∧ user_images_list [1] 1 2 ⟨[⟨3, "s", 2, false, []⟩], []⟩ .notInt false
        = .error () := by
  decide

/-- C10 as amended: for a requester whose id differs from the requested
user id, the response is the not-found page whenever the requested user
exists, and in every case the response is computed without consulting the
image records (replacing the record store never changes it). -/
theorem user_images_list_other_user (users : List UserId) (cur uid : UserId)
    (db db' : Db) (p : PageParam) (io : Bool) (hne : uid ≠ cur) :
    (users.contains uid = true →
        user_images_list users cur uid db p io = .ok .notFound)
    ∧ user_images_list users cur uid db p io
        = user_images_list users cur uid db' p io := by
  by_cases hc : users.contains uid = true
  · have hm : uid ∈ users := by simpa using hc
    constructor
    · intro _; simp [user_images_list, hm, hne]
    · simp [user_images_list, hm, hne]
  · have hm : uid ∉ users := by simpa using hc
    constructor
    · intro hcontra; exact absurd hcontra hc
    · simp [user_images_list, hm]

/-- Witness for C10's amended statement: user 2 exists, requester 1 asks
for user 2's listing and receives the not-found page, identically for two
different record stores. -/
theorem user_images_list_other_user_witness :
    (([1, 2] : List UserId).contains 2 = true →
        user_images_list [1, 2] 1 2 ⟨[⟨3, "s", 2, false, []⟩], []⟩ .notInt false
          = .ok .notFound)
    ∧ user_images_list [1, 2] 1 2 ⟨[⟨3, "s", 2, false, []⟩], []⟩ .notInt false
        = user_images_list [1, 2] 1 2 ⟨[], []⟩ .notInt false :=
  user_images_list_other_user [1, 2] 1 2 ⟨[⟨3, "s", 2, false, []⟩], []⟩ ⟨[], []⟩
    .notInt false (by decide)

theorem lookup_of_mem_nodup {l : List (Id × Nat)}
    (hnd : (l.map (fun e => e.1)).Nodup) {k : Id} {v : Nat}
    (h : (k, v) ∈ l) : List.lookup k l = some v := by
  induction l with
  | nil => simp at h
  | cons a rest ih =>
      obtain ⟨ka, va⟩ := a
      simp only [List.map_cons, List.nodup_cons] at hnd
      rcases List.mem_cons.mp h with heq | hmem
      · obtain ⟨rfl, rfl⟩ := Prod.mk.injEq .. ▸ heq
        simp [List.lookup_cons]
      · by_cases hk : k = ka
        · subst hk
          exact absurd (List.mem_map.mpr ⟨(k, v), hmem, rfl⟩) hnd.1
        · simp [List.lookup_cons, beq_false_of_ne hk, ih hnd.2 hmem]

theorem listIndex_lt_length {l : List Id} {x : Id} (h : x ∈ l) :
    listIndex l x < l.length := by
  induction l with
  | nil => simp at h
  | cons y ys ih =>
      by_cases hy : y = x
      · simp [listIndex, hy]
      · have h2 : x ∈ ys := by
          rcases List.mem_cons.mp h with h1 | h2
          · exact absurd h1.symm hy
          · exact h2
        simpa [listIndex, hy] using ih h2

theorem pairwise_listIndex {l : List Id} {R : Id → Id → Prop} (hp : l.Pairwise R)
    {x y : Id} (hx : x ∈ l) (hy : y ∈ l)
    (hlt : listIndex l x < listIndex l y) : R x y := by
  induction l with
  | nil => simp at hx
  | cons a as ih =>
      rw [List.pairwise_cons] at hp
      by_cases hax : a = x
      · subst hax
        by_cases hay : a = y
        · subst hay; simp [listIndex] at hlt
        · have hy2 : y ∈ as := by
            rcases List.mem_cons.mp hy with h1 | h2
            · exact absurd h1.symm hay
            · exact h2
          exact hp.1 y hy2
      · by_cases hay : a = y
        · subst hay; simp [listIndex, hax] at hlt
        · have hx2 : x ∈ as := by
            rcases List.mem_cons.mp hx with h1 | h2
            · exact absurd h1.symm hax
            · exact h2
          have hy2 : y ∈ as := by
            rcases List.mem_cons.mp hy with h1 | h2
            · exact absurd h1.symm hay
            · exact h2
          exact ih hp.2 hx2 hy2 (by simpa [listIndex, hax, hay] using hlt)

theorem listIndex_inj {l : List Id} {x y : Id} (hx : x ∈ l) (hy : y ∈ l)
    (heq : listIndex l x = listIndex l y) : x = y := by
  induction l with
  | nil => simp at hx
  | cons a as ih =>
      by_cases hax : a = x
      · subst hax
        by_cases hay : a = y
        · exact hay
        · simp [listIndex, hay] at heq
      · by_cases hay : a = y
        · subst hay; simp [listIndex, hax] at heq
        · have hx2 : x ∈ as := by
            rcases List.mem_cons.mp hx with h1 | h2
            · exact absurd h1.symm hax
            · exact h2
          have hy2 : y ∈ as := by
            rcases List.mem_cons.mp hy with h1 | h2
            · exact absurd h1.symm hay
            · exact h2
          exact ih hx2 hy2 (by simpa [listIndex, hax, hay] using heq)

theorem pairwise_of_listIndex_le {l : List Id} {R : Id → Id → Prop}
    (hp : l.Pairwise R) (hrefl : ∀ x ∈ l, R x x)
    {x y : Id} (hx : x ∈ l) (hy : y ∈ l)
    (hle : listIndex l x ≤ listIndex l y) : R x y := by
  rcases Nat.lt_or_ge (listIndex l x) (listIndex l y) with hlt | hge
  · exact pairwise_listIndex hp hx hy hlt
  · obtain rfl : x = y := listIndex_inj hx hy (Nat.le_antisymm hle hge)
    exact hrefl x hx

theorem image_ranking_ids_pairwise (ranking : List (Id × Nat))
    (hr : (ranking.map (fun e => e.1)).Nodup) :
    (image_ranking_ids ranking).Pairwise
      (fun x y => scoreOf ranking y ≤ scoreOf ranking x) := by
  haveI hto : IsTotal (Id × Nat) rankLe := ⟨by
    intro a b
    unfold rankLe
    rcases Nat.lt_trichotomy a.2 b.2 with h | h | h
    · exact Or.inr (Or.inl h)
    · rcases Nat.le_total a.1 b.1 with h1 | h1
      · exact Or.inl (Or.inr ⟨h.symm, h1⟩)
      · exact Or.inr (Or.inr ⟨h, h1⟩)
    · exact Or.inl (Or.inl h)⟩
  haveI htr : IsTrans (Id × Nat) rankLe := ⟨by
    intro a b c hab hbc
    unfold rankLe at hab hbc ⊢
    rcases hab with h1 | ⟨h1, h2⟩
    · rcases hbc with h3 | ⟨h3, h4⟩
      · exact Or.inl (Nat.lt_trans h3 h1)
      · exact Or.inl (by rw [h3]; exact h1)
    · rcases hbc with h3 | ⟨h3, h4⟩
      · exact Or.inl (by rw [← h1]; exact h3)
      · exact Or.inr ⟨h3.trans h1, h2.trans h4⟩⟩
  have hs : (ranking.insertionSort rankLe).Pairwise rankLe :=
    List.sorted_insertionSort rankLe ranking
  have hs2 : (ranking.insertionSort rankLe).Pairwise
      (fun a b => scoreOf ranking b.1 ≤ scoreOf ranking a.1) := by
    refine hs.imp_of_mem (fun {a b} ha hb hab => ?_)
    have ha2 : List.lookup a.1 ranking = some a.2 :=
      lookup_of_mem_nodup hr ((List.mem_insertionSort _).mp ha)
    have hb2 : List.lookup b.1 ranking = some b.2 :=
      lookup_of_mem_nodup hr ((List.mem_insertionSort _).mp hb)
    unfold scoreOf
    rw [ha2, hb2]
    simp only [Option.getD_some]
    unfold rankLe at hab
    rcases hab with h | ⟨h, _⟩
    · exact Nat.le_of_lt h
    · exact Nat.le_of_eq h
  unfold image_ranking_ids zrange_desc
  refine List.Pairwise.sublist (List.take_sublist _ _) ?_
  exact (List.pairwise_map).mpr hs2

/-- C4: for every ranking-store and record-store state (with unique redis
members and unique record ids), the `most_viewed` list of `image_list` has
at most 10 entries, contains only public records, and is ordered by
descending ranking score. -/
theorem most_viewed_top10_public_sorted (ranking : List (Id × Nat))
    (images : List Image)
    (hr : (ranking.map (fun e => e.1)).Nodup)
    (hi : (images.map (fun im => im.id)).Nodup) :
    (most_viewed ranking images).length ≤ 10
    ∧ (∀ im ∈ most_viewed ranking images, im.priv = false)
    ∧ (most_viewed ranking images).Pairwise
        (fun a b => scoreOf ranking b.id ≤ scoreOf ranking a.id) := by
  have hmv : most_viewed ranking images
      = (images.filter (fun im =>
            (image_ranking_ids ranking).contains im.id && im.priv == false)).insertionSort
          (fun a b => listIndex (image_ranking_ids ranking) a.id
              ≤ listIndex (image_ranking_ids ranking) b.id) := rfl
  set ids := image_ranking_ids ranking with hids
  set flt := images.filter (fun im => ids.contains im.id && im.priv == false)
    with hflt
  have hmem_flt : ∀ im ∈ flt, im.id ∈ ids ∧ im.priv = false := by
    intro im him
    have h2 := (List.mem_filter.mp him).2
    simp only [Bool.and_eq_true] at h2
    exact ⟨by simpa using h2.1, by simpa using h2.2⟩
  refine ⟨?_, ?_, ?_⟩
  · rw [hmv, List.length_insertionSort]
    have hsub : List.Sublist flt images := List.filter_sublist _
    have hnd : (flt.map (fun im => im.id)).Nodup := (hsub.map _).nodup hi
    have hsubset : ∀ a ∈ flt.map (fun im => im.id), a ∈ ids := by
      intro a ha
      obtain ⟨im, him, rfl⟩ := List.mem_map.mp ha
      exact (hmem_flt im him).1
    calc flt.length
        = (flt.map (fun im => im.id)).length := by rw [List.length_map]
      _ = (flt.map (fun im => im.id)).toFinset.card :=
            (List.toFinset_card_of_nodup hnd).symm
      _ ≤ ids.toFinset.card := Finset.card_le_card (fun a ha => by
            rw [List.mem_toFinset] at ha ⊢
            exact hsubset a ha)
      _ ≤ ids.length := List.toFinset_card_le ids
      _ ≤ 10 := by
            rw [hids]
            unfold image_ranking_ids
            rw [List.length_take]
            exact Nat.min_le_left _ _
  · intro im him
    rw [hmv] at him
    exact (hmem_flt im ((List.mem_insertionSort _).mp him)).2
  · haveI : IsTotal Image (fun a b => listIndex ids a.id ≤ listIndex ids b.id) :=
      ⟨fun a b => Nat.le_total _ _⟩
    haveI : IsTrans Image (fun a b => listIndex ids a.id ≤ listIndex ids b.id) :=
      ⟨fun a b c hab hbc => Nat.le_trans hab hbc⟩
    have hs : (flt.insertionSort
          (fun a b => listIndex ids a.id ≤ listIndex ids b.id)).Pairwise
        (fun a b => listIndex ids a.id ≤ listIndex ids b.id) :=
      List.sorted_insertionSort _ flt
    have hidsp := image_ranking_ids_pairwise ranking hr
    rw [hmv]
    refine hs.imp_of_mem (fun {a b} ha hb hab => ?_)
    exact pairwise_of_listIndex_le hidsp (fun x _ => Nat.le_refl _)
      (hmem_flt a ((List.mem_insertionSort _).mp ha)).1
      (hmem_flt b ((List.mem_insertionSort _).mp hb)).1 hab

/-- Witness for C4 at a concrete state: three ranked images of which one is
private; the side list keeps the two public ones in descending score
order. -/
theorem most_viewed_top10_public_sorted_witness :
    (most_viewed [(1, 5), (2, 9), (3, 7)]
        [⟨1, "a", 0, false, []⟩, ⟨2, "b", 0, true, []⟩, ⟨3, "c", 0, false, []⟩]).length ≤ 10
    ∧ (∀ im ∈ most_viewed [(1, 5), (2, 9), (3, 7)]
          [⟨1, "a", 0, false, []⟩, ⟨2, "b", 0, true, []⟩, ⟨3, "c", 0, false, []⟩],
        im.priv = false)
    ∧ (most_viewed [(1, 5), (2, 9), (3, 7)]
          [⟨1, "a", 0, false, []⟩, ⟨2, "b", 0, true, []⟩, ⟨3, "c", 0, false, []⟩]).Pairwise
        (fun a b => scoreOf [(1, 5), (2, 9), (3, 7)] b.id
            ≤ scoreOf [(1, 5), (2, 9), (3, 7)] a.id) :=
  most_viewed_top10_public_sorted [(1, 5), (2, 9), (3, 7)]
    [⟨1, "a", 0, false, []⟩, ⟨2, "b", 0, true, []⟩, ⟨3, "c", 0, false, []⟩]
    (by decide) (by decide)

end ShareIt
